import Mathlib

/-!
# Carbon-credit marketplace: a shallow embedding

This file embeds the backend of the carbon-credit marketplace
(`backend/database.js`, `backend/pbft.js`, `backend/server.js`) as
executable Lean definitions, and proves the specified properties of the
issuance, purchase and registration operations, of the PBFT quorum gate
and of the hash-chained ledger.

Modelling conventions:
* JavaScript numbers are modelled as exact integers (`Int`); `parseFloat`
  on an already-numeric value is the identity and is dropped.
* The `Map` objects `users` and `listings` are modelled as association
  lists in insertion order (`Map.set` updates in place or appends;
  `Map.delete` filters; `Map.get` finds the first matching key).
* `uuidv4()` listing ids are modelled by a fresh-id counter `nextId`
  starting at 1 (a uuid string is never falsy, so id 0 is reserved to
  model the falsy listing-id check in the buy-credit route).
* `new Date().toISOString()` timestamps are modelled by a monotone
  counter `clock`.
* `Math.random() > 0.2` voting in `pbft.js` is modelled by passing the
  random source as an explicit vote oracle (`String → Bool`), one for
  the prepare phase and one for the commit phase; the code's vote
  functions ignore the transaction argument, so the oracles do too.
* The truthiness test `!x` of the route handlers is: for strings,
  equality with `""`; for numbers, equality with `0`.
-/

namespace Marketplace

/-- A user record as stored in `Database.users` (`database.js`). -/
structure User where
  username : String
  password : String
  role : String
  balance : Int
deriving DecidableEq, Repr

/-- A listing record as created by `Database.createListing` (`database.js`). -/
structure Listing where
  id : Nat
  seller : String
  amount : Int
  price : Int
  status : String
  createdAt : Nat
deriving DecidableEq, Repr

/-- The kind-tagged block payloads appended by `server.js`
(`type: carbon_credit_listing` and `type: carbon_credit_purchase`),
plus the genesis payload. -/
inductive BlockData where
  | genesis : BlockData
  | listing (listingId : Nat) (seller : String) (amount price : Int)
      (timestamp : Nat) (status : String) : BlockData
  | purchase (listingId : Nat) (buyer seller : String) (amount price : Int)
      (timestamp : Nat) : BlockData
deriving DecidableEq, Repr

/-- A block of the hash chain (wire shape of spec section 6:
position is implicit as the list index). -/
structure Block where
  timestamp : Nat
  data : BlockData
  previousHash : Nat
  hash : Nat
  nonce : Nat
deriving DecidableEq, Repr

/-- Mixing step used by the modelled digest. -/
def mix (a b : Nat) : Nat := a * 37 + b + 7

/-- Numeric encoding of a string, for hashing. -/
def encodeString (s : String) : Nat :=
  s.data.foldl (fun a c => mix a c.toNat) 3

/-- Numeric encoding of an integer, for hashing. -/
def encodeInt (z : Int) : Nat :=
  if z < 0 then 2 * z.natAbs + 1 else 2 * z.natAbs

/-- Numeric encoding of a block payload, for hashing. -/
def encodeData : BlockData → Nat
  | .genesis => 5
  | .listing lid s a p ts st =>
      mix (mix (mix (mix (mix 11 lid) (encodeString s)) (encodeInt a))
        (mix (encodeInt p) ts)) (encodeString st)
  | .purchase lid b s a p ts =>
      mix (mix (mix (mix (mix 13 lid) (encodeString b))
        (mix (encodeString s) (encodeInt a))) (encodeInt p)) ts

/-- Modelled from the spec: `backend/blockchain.js` is not among the
source files (only its callers in `server.js` are), so the Ledger is
modelled from spec section 4.1:
`hash = digest(previousHash, timestamp, payload, nonce)`. -/
def digest (prev ts : Nat) (d : BlockData) (nonce : Nat) : Nat :=
  mix (mix (mix prev ts) (encodeData d)) nonce

/-- Modelled from the spec: the configured difficulty predicate of
spec section 4.1 ("e.g., N leading zero bits") is configured with
N = 0 leading bits, so every digest satisfies it and the increasing
nonce search of `append` succeeds at nonce 0. -/
def difficultyOk (_h : Nat) : Prop := True

/-- Modelled from the spec: the fixed genesis block with constant
previousHash 0 (spec section 3). -/
def genesisBlock : Block :=
  { timestamp := 0, data := .genesis, previousHash := 0,
    hash := digest 0 0 .genesis 0, nonce := 0 }

/-- Hash of the last block of a chain (the chain always contains at
least the genesis block). -/
def lastHash (chain : List Block) : Nat :=
  ((chain.getLast?).map Block.hash).getD genesisBlock.hash

/-- Modelled from the spec: `append(payload)` of spec section 4.1 -
build the block whose hash is the digest of previous hash, timestamp,
payload and nonce (nonce 0 satisfies the configured difficulty), and
append it; append is all-or-nothing. -/
def addBlock (chain : List Block) (ts : Nat) (d : BlockData) : List Block :=
  let prev := lastHash chain
  chain ++ [{ timestamp := ts, data := d, previousHash := prev,
              hash := digest prev ts d 0, nonce := 0 }]

/-- The chain a fresh `Blockchain` starts with: just the genesis block. -/
def initialChain : List Block := [genesisBlock]

/-- Modelled from the spec: the recursive worker of `verify()` -
recompute each block's hash and check its previous-link against the
hash of the block before it; report the first index that breaks. -/
def verifyFrom (expectedPrev : Nat) (i : Nat) : List Block → Option Nat
  | [] => none
  | b :: rest =>
      if b.previousHash = expectedPrev ∧
         b.hash = digest b.previousHash b.timestamp b.data b.nonce then
        verifyFrom b.hash (i + 1) rest
      else some i

/-- Modelled from the spec: `verify()` of spec section 4.1 - returns
the first index at which chain integrity breaks, or none. -/
def verify (chain : List Block) : Option Nat :=
  verifyFrom 0 0 chain

/-- A chain built from `c` by `append`-ing the given payloads (each
with its timestamp), oldest first. -/
def buildChainFrom (c : List Block) (entries : List (Nat × BlockData)) :
    List Block :=
  entries.foldl (fun ch e => addBlock ch e.1 e.2) c

/-- A chain built from the genesis chain by `append`-ing the given
payloads (each with its timestamp), oldest first. -/
def buildChain (entries : List (Nat × BlockData)) : List Block :=
  buildChainFrom initialChain entries

/-- The well-formedness predicate `verify` checks, spelled out
recursively: each block's previousHash continues the chain and its
hash recomputes from its own fields. -/
def Chained : Nat → List Block → Prop
  | _, [] => True
  | prev, b :: rest =>
      b.previousHash = prev ∧
      b.hash = digest b.previousHash b.timestamp b.data b.nonce ∧
      Chained b.hash rest

/-! ## PBFT quorum gate (`pbft.js`) -/

/-- The fixed validator set of `PBFT` (`this.nodes`). -/
def pbftNodes : List String := ["node1", "node2", "node3", "node4"]

/-- Result of one voting phase (`{ prepared/committed, voteCount,
required }` in `collectPrepareMessages` / `collectCommitMessages`). -/
structure PhaseResult where
  passed : Bool
  voteCount : Nat
  required : Nat
deriving DecidableEq, Repr

/-- The `forEach` counting loop: how many nodes vote YES. -/
def countVotes (nodes : List String) (vote : String → Bool) : Nat :=
  (nodes.filter vote).length

/-- The threshold `Math.floor((n - 1) / 3) * 2 + 1`. -/
def requiredVotes (nodes : List String) : Nat :=
  (nodes.length - 1) / 3 * 2 + 1

/-- `PBFT.collectPrepareMessages`, with the per-node random draw
passed as a vote oracle. -/
def collectPrepareMessages (nodes : List String) (vote : String → Bool) :
    PhaseResult :=
  let c := countVotes nodes vote
  let r := requiredVotes nodes
  ⟨decide (r ≤ c), c, r⟩

/-- `PBFT.collectCommitMessages`, with the per-node random draw passed
as a vote oracle. -/
def collectCommitMessages (nodes : List String) (vote : String → Bool) :
    PhaseResult :=
  let c := countVotes nodes vote
  let r := requiredVotes nodes
  ⟨decide (r ≤ c), c, r⟩

/-- Outcome of `PBFT.startConsensus`: the callback's `success` flag,
plus the phase tallies the run produced (`commit = none` when the
prepare phase failed, since the commit phase is then never executed). -/
structure ConsensusOutcome where
  success : Bool
  prepare : PhaseResult
  commit : Option PhaseResult
deriving Repr

/-- `PBFT.startConsensus`: prepare phase, then - only if prepared -
commit phase; the callback receives `success` accordingly. -/
def startConsensus (nodes : List String) (prepVote commitVote : String → Bool) :
    ConsensusOutcome :=
  let p := collectPrepareMessages nodes prepVote
  if p.passed then
    let c := collectCommitMessages nodes commitVote
    ⟨c.passed, p, some c⟩
  else
    ⟨false, p, none⟩

/-! ## Database (`database.js`) -/

/-- `Map.get` on the users map: first entry with the given key. -/
def usersGet : List (String × User) → String → Option User
  | [], _ => none
  | p :: rest, q => if p.1 = q then some p.2 else usersGet rest q

/-- `Map.has` on the users map. -/
def hasUser (m : List (String × User)) (k : String) : Bool :=
  (usersGet m k).isSome

/-- `updateUserBalance`: if the user exists, add `amount` to its
balance in place (affects only entries with the given key). -/
def updateBalanceIn (m : List (String × User)) (k : String) (amount : Int) :
    List (String × User) :=
  m.map fun p =>
    if p.1 = k then (p.1, { p.2 with balance := p.2.balance + amount }) else p

/-- `Map.get` on the listings map: first listing with the given id. -/
def listingsGet : List Listing → Nat → Option Listing
  | [], _ => none
  | l :: rest, q => if l.id = q then some l else listingsGet rest q

/-- Mutating the `status` field of the listing with the given id
(`verifyListing`, and the failed-listing branch of `server.js`). -/
def setListingStatus (ls : List Listing) (lid : Nat) (st : String) :
    List Listing :=
  ls.map fun l => if l.id = lid then { l with status := st } else l

/-- `Map.delete` on the listings map. -/
def deleteListing (ls : List Listing) (lid : Nat) : List Listing :=
  ls.filter fun l => l.id ≠ lid

/-- The whole backend state: the two `Database` maps, the blockchain,
and the modelled fresh-id and clock counters. -/
structure ServerState where
  users : List (String × User)
  listings : List Listing
  chain : List Block
  nextId : Nat
  clock : Nat
deriving DecidableEq, Repr

/-- Result shape of `Database.registerUser`. -/
structure OpResult where
  success : Bool
  message : String
deriving DecidableEq, Repr

/-- `Database.registerUser`: duplicate-username check, then role
check, then insert with balance 0. -/
def registerUser (s : ServerState) (username password role : String) :
    OpResult × ServerState :=
  if hasUser s.users username then
    (⟨false, "Username already exists"⟩, s)
  else if role = "buyer" ∨ role = "seller" then
    (⟨true, "User registered successfully"⟩,
      { s with users := s.users ++ [(username, ⟨username, password, role, 0⟩)] })
  else
    (⟨false, "Invalid role"⟩, s)

/-- `Database.updateUserBalance` lifted to the state. -/
def updateUserBalance (s : ServerState) (k : String) (amount : Int) :
    ServerState :=
  { s with users := updateBalanceIn s.users k amount }

/-- `Database.createListing`: a fresh `pending` listing, appended to
the listings map. -/
def createListing (s : ServerState) (seller : String) (amount price : Int) :
    Listing × ServerState :=
  let l : Listing :=
    { id := s.nextId, seller := seller, amount := amount, price := price,
      status := "pending", createdAt := s.clock }
  (l, { s with listings := s.listings ++ [l],
               nextId := s.nextId + 1, clock := s.clock + 1 })

/-- The projection `getMarketplace` returns per verified listing. -/
structure MarketItem where
  id : Nat
  seller : String
  amount : Int
  price : Int
  createdAt : Nat
deriving DecidableEq, Repr

/-- `Database.getMarketplace`: all `verified` listings, projected. -/
def getMarketplace (s : ServerState) : List MarketItem :=
  (s.listings.filter fun l => l.status = "verified").map fun l =>
    ⟨l.id, l.seller, l.amount, l.price, l.createdAt⟩

/-- Result shape of `Database.purchaseCredit` (failure results leave
the seller/amount/price fields at their defaults). -/
structure PurchaseResult where
  success : Bool
  message : String
  seller : String
  amount : Int
  price : Int
deriving DecidableEq, Repr

/-- `Database.purchaseCredit`: look the listing up, require status
`verified`, require the buyer to exist; then debit the seller, credit
the buyer, and delete the listing. -/
def purchaseCredit (s : ServerState) (buyer : String) (listingId : Nat) :
    PurchaseResult × ServerState :=
  match listingsGet s.listings listingId with
  | none => (⟨false, "Listing not found", "", 0, 0⟩, s)
  | some l =>
      if l.status ≠ "verified" then
        (⟨false, "Listing not available for purchase", "", 0, 0⟩, s)
      else if hasUser s.users buyer then
        let s1 := updateUserBalance s l.seller (-l.amount)
        let s2 := updateUserBalance s1 buyer l.amount
        let s3 := { s2 with listings := deleteListing s2.listings listingId }
        (⟨true, "", l.seller, l.amount, l.price⟩, s3)
      else
        (⟨false, "Buyer not found", "", 0, 0⟩, s)

/-! ## Route handlers (`server.js`) -/

/-- JSON response of the mutating routes (`listingId` is only present
in the list-credit response). -/
structure ApiResponse where
  success : Bool
  message : String
  listingId : Option Nat
deriving DecidableEq, Repr

/-- The `/api/register` handler: falsy-field guard, then
`registerUser`. -/
def postRegister (s : ServerState) (username password role : String) :
    ApiResponse × ServerState :=
  if username = "" ∨ password = "" ∨ role = "" then
    (⟨false, "All fields are required", none⟩, s)
  else
    let (r, s') := registerUser s username password role
    (⟨r.success, r.message, none⟩, s')

/-- The `/api/list-credit` handler: falsy-field guard, seller check,
`createListing`, then the PBFT consensus whose callback either appends
the issuance block, credits the seller and verifies the listing, or
marks the listing failed. `startConsensus` invokes the callback
synchronously, so the whole flow is one state transition; the HTTP
response is sent after the callback and reports `success: true` with
the listing id in both outcomes. -/
def postListCredit (s : ServerState) (username : String) (amount price : Int)
    (prepVote commitVote : String → Bool) : ApiResponse × ServerState :=
  if username = "" ∨ amount = 0 ∨ price = 0 then
    (⟨false, "All fields are required", none⟩, s)
  else
    match usersGet s.users username with
    | none => (⟨false, "Invalid user or not a seller", none⟩, s)
    | some u =>
        if u.role = "seller" then
          let (listing, s1) := createListing s username amount price
          let outcome := startConsensus pbftNodes prepVote commitVote
          if outcome.success then
            let s2 := { s1 with
              chain := addBlock s1.chain s1.clock
                (.listing listing.id username amount price s1.clock "verified"),
              clock := s1.clock + 1 }
            let s3 := updateUserBalance s2 username amount
            let s4 := { s3 with
              listings := setListingStatus s3.listings listing.id "verified" }
            (⟨true, "Carbon credit listed and undergoing verification",
              some listing.id⟩, s4)
          else
            (⟨true, "Carbon credit listed and undergoing verification",
              some listing.id⟩,
              { s1 with
                listings := setListingStatus s1.listings listing.id "failed" })
        else
          (⟨false, "Invalid user or not a seller", none⟩, s)

/-- The `/api/buy-credit` handler: falsy-field guard, then
`purchaseCredit`; on success append the transfer block. -/
def postBuyCredit (s : ServerState) (buyer : String) (listingId : Nat) :
    ApiResponse × ServerState :=
  if buyer = "" ∨ listingId = 0 then
    (⟨false, "Buyer and listing ID are required", none⟩, s)
  else
    let (r, s1) := purchaseCredit s buyer listingId
    if r.success then
      (⟨true, "Purchase successful", none⟩,
        { s1 with
          chain := addBlock s1.chain s1.clock
            (.purchase listingId buyer r.seller r.amount r.price s1.clock),
          clock := s1.clock + 1 })
    else
      (⟨false, r.message, none⟩, s1)

/-- The state at server start: the two test users of
`initializeTestData`, no listings, the genesis chain. -/
def initialState : ServerState :=
  { users := [("seller1", ⟨"seller1", "password123", "seller", 0⟩),
              ("buyer1", ⟨"buyer1", "password123", "buyer", 0⟩)],
    listings := [], chain := initialChain, nextId := 1, clock := 0 }

/-- A public mutating operation of the backend (one HTTP request to a
mutating route, with the random vote draws of an issuance made
explicit). -/
inductive Op where
  | register (username password role : String) : Op
  | listCredit (username : String) (amount price : Int)
      (prepVote commitVote : String → Bool) : Op
  | buyCredit (buyer : String) (listingId : Nat) : Op

/-- State transition of one operation (the HTTP response discarded). -/
def applyOp (s : ServerState) : Op → ServerState
  | .register u p r => (postRegister s u p r).2
  | .listCredit u a p pv cv => (postListCredit s u a p pv cv).2
  | .buyCredit b lid => (postBuyCredit s b lid).2

/-- Run a sequence of operations from a state. -/
def run (s : ServerState) (ops : List Op) : ServerState :=
  ops.foldl applyOp s

/-- The states reachable from server start through the public
operations. -/
def Reachable (s : ServerState) : Prop :=
  ∃ ops, s = run initialState ops

/-- The fresh `pending` listing created by an accepted list-credit
request. -/
def pendingListing (s : ServerState) (username : String)
    (amount price : Int) : Listing :=
  { id := s.nextId, seller := username, amount := amount, price := price,
    status := "pending", createdAt := s.clock }

/-- Total quantity of the `verified` listings offered by seller `k`:
the credit already granted to `k` that is still on the market. -/
def vsum (ls : List Listing) (k : String) : Int :=
  ((ls.filter fun l => l.status = "verified" ∧ l.seller = k).map
    Listing.amount).sum

/-- The inductive state invariant behind non-negative balances: every
account covers its own verified offers, verified quantities are
non-negative, listing ids are fresh-bounded and duplicate-free, and
every listing's seller is a known account. -/
def GoodState (s : ServerState) : Prop :=
  (∀ p ∈ s.users, vsum s.listings p.1 ≤ p.2.balance) ∧
  (∀ l ∈ s.listings, l.status = "verified" → 0 ≤ l.amount) ∧
  (∀ l ∈ s.listings, l.id < s.nextId) ∧
  (s.listings.map Listing.id).Nodup ∧
  (∀ l ∈ s.listings, hasUser s.users l.seller = true)

/-- An operation whose issuance quantity (if any) is non-negative. -/
def NonNegOp : Op → Prop
  | .listCredit _ amount _ _ _ => 0 ≤ amount
  | _ => True

/-- Forget a listing's unit price (for price-noninterference). -/
def stripPrice (l : Listing) : Listing := { l with price := 0 }

/-- Two states that agree on everything the balance logic can read
except the recorded unit prices (and the chain, which balances never
read). -/
def PriceAgnostic (s t : ServerState) : Prop :=
  s.users = t.users ∧
  s.listings.map stripPrice = t.listings.map stripPrice ∧
  s.nextId = t.nextId ∧ s.clock = t.clock

/-! ## Lemmas about the map primitives -/

theorem usersGet_updateBalanceIn (m : List (String × User)) (k q : String)
    (a : Int) :
    usersGet (updateBalanceIn m k a) q =
      if q = k then
        (usersGet m q).map (fun u => { u with balance := u.balance + a })
      else usersGet m q := by
  induction m with
  | nil => by_cases h : q = k <;> simp [usersGet, updateBalanceIn, h]
  | cons p rest ih =>
      obtain ⟨pk, pu⟩ := p
      simp only [updateBalanceIn, List.map_cons] at ih ⊢
      by_cases h1 : pk = k
      · subst h1
        by_cases h2 : pk = q
        · subst h2
          simp [usersGet]
        · simp only [usersGet, if_pos rfl]
          simp [h2, ih]
      · by_cases h2 : pk = q
        · subst h2
          have hqk : ¬ pk = k := h1
          simp [usersGet, h1, hqk]
        · simp [usersGet, h1, h2, ih]

theorem hasUser_updateBalanceIn (m : List (String × User)) (k q : String)
    (a : Int) : hasUser (updateBalanceIn m k a) q = hasUser m q := by
  unfold hasUser
  rw [usersGet_updateBalanceIn]
  by_cases h : q = k <;> simp [h]

theorem usersGet_append_left {m : List (String × User)} {q : String} {u : User}
    (m' : List (String × User)) (h : usersGet m q = some u) :
    usersGet (m ++ m') q = some u := by
  induction m with
  | nil => simp [usersGet] at h
  | cons p rest ih =>
      obtain ⟨pk, pu⟩ := p
      by_cases h1 : pk = q <;> simp_all [usersGet]

theorem usersGet_append_right {m : List (String × User)} {q : String}
    (m' : List (String × User)) (h : usersGet m q = none) :
    usersGet (m ++ m') q = usersGet m' q := by
  induction m with
  | nil => simp [usersGet]
  | cons p rest ih =>
      obtain ⟨pk, pu⟩ := p
      by_cases h1 : pk = q <;> simp_all [usersGet]

theorem hasUser_append {m m' : List (String × User)} {q : String}
    (h : hasUser m q = true) : hasUser (m ++ m') q = true := by
  unfold hasUser at h ⊢
  cases hm : usersGet m q with
  | none => simp [hm] at h
  | some u => simp [usersGet_append_left m' hm]

theorem listingsGet_mem {ls : List Listing} {lid : Nat} {l : Listing}
    (h : listingsGet ls lid = some l) : l ∈ ls ∧ l.id = lid := by
  induction ls with
  | nil => simp [listingsGet] at h
  | cons x rest ih =>
      by_cases h1 : x.id = lid
      · simp_all [listingsGet]
      · simp only [listingsGet, if_neg h1] at h
        exact ⟨List.mem_cons_of_mem x (ih h).1, (ih h).2⟩

theorem listingsGet_append_left {ls : List Listing} {lid : Nat} {l : Listing}
    (ls' : List Listing) (h : listingsGet ls lid = some l) :
    listingsGet (ls ++ ls') lid = some l := by
  induction ls with
  | nil => simp [listingsGet] at h
  | cons x rest ih =>
      by_cases h1 : x.id = lid <;> simp_all [listingsGet]

theorem listingsGet_append_right {ls : List Listing} {lid : Nat}
    (ls' : List Listing) (h : listingsGet ls lid = none) :
    listingsGet (ls ++ ls') lid = listingsGet ls' lid := by
  induction ls with
  | nil => simp [listingsGet]
  | cons x rest ih =>
      by_cases h1 : x.id = lid <;> simp_all [listingsGet]

theorem listingsGet_none_of_ne {ls : List Listing} {lid : Nat}
    (h : ∀ l ∈ ls, l.id ≠ lid) : listingsGet ls lid = none := by
  induction ls with
  | nil => simp [listingsGet]
  | cons x rest ih => simp_all [listingsGet]

theorem listingsGet_setListingStatus (ls : List Listing) (lid : Nat)
    (st : String) (q : Nat) :
    listingsGet (setListingStatus ls lid st) q =
      (listingsGet ls q).map
        (fun l => if l.id = lid then { l with status := st } else l) := by
  induction ls with
  | nil => simp [listingsGet, setListingStatus]
  | cons x rest ih =>
      by_cases h1 : x.id = q <;> by_cases h2 : x.id = lid <;>
        simp_all [listingsGet, setListingStatus]

theorem setListingStatus_append (ls ls' : List Listing) (lid : Nat)
    (st : String) :
    setListingStatus (ls ++ ls') lid st =
      setListingStatus ls lid st ++ setListingStatus ls' lid st := by
  simp [setListingStatus]

theorem setListingStatus_of_fresh {ls : List Listing} {lid : Nat}
    (st : String) (h : ∀ l ∈ ls, l.id ≠ lid) :
    setListingStatus ls lid st = ls := by
  induction ls with
  | nil => rfl
  | cons x rest ih => simp_all [setListingStatus]

theorem listingsGet_deleteListing_self (ls : List Listing) (lid : Nat) :
    listingsGet (deleteListing ls lid) lid = none := by
  induction ls with
  | nil => simp [listingsGet, deleteListing]
  | cons x rest ih =>
      by_cases h1 : x.id = lid <;> simp_all [listingsGet, deleteListing]

/-! ## Characterizations of the route handlers -/

theorem postListCredit_committed (s : ServerState) (username : String)
    (amount price : Int) (pv cv : String → Bool) (u : User)
    (hname : username ≠ "") (hamt : amount ≠ 0) (hpr : price ≠ 0)
    (hu : usersGet s.users username = some u) (hrole : u.role = "seller")
    (hgate : (startConsensus pbftNodes pv cv).success = true) :
    postListCredit s username amount price pv cv =
      (⟨true, "Carbon credit listed and undergoing verification",
        some s.nextId⟩,
       { users := updateBalanceIn s.users username amount,
         listings := setListingStatus
           (s.listings ++ [pendingListing s username amount price])
           s.nextId "verified",
         chain := addBlock s.chain (s.clock + 1)
           (.listing s.nextId username amount price (s.clock + 1) "verified"),
         nextId := s.nextId + 1, clock := s.clock + 2 }) := by
  simp [postListCredit, hname, hamt, hpr, hu, hrole, hgate, createListing,
    updateUserBalance, pendingListing]

theorem postListCredit_aborted (s : ServerState) (username : String)
    (amount price : Int) (pv cv : String → Bool) (u : User)
    (hname : username ≠ "") (hamt : amount ≠ 0) (hpr : price ≠ 0)
    (hu : usersGet s.users username = some u) (hrole : u.role = "seller")
    (hgate : (startConsensus pbftNodes pv cv).success = false) :
    postListCredit s username amount price pv cv =
      (⟨true, "Carbon credit listed and undergoing verification",
        some s.nextId⟩,
       { users := s.users,
         listings := setListingStatus
           (s.listings ++ [pendingListing s username amount price])
           s.nextId "failed",
         chain := s.chain,
         nextId := s.nextId + 1, clock := s.clock + 1 }) := by
  simp [postListCredit, hname, hamt, hpr, hu, hrole, hgate, createListing,
    pendingListing]

theorem postBuyCredit_success (s : ServerState) (buyer : String) (lid : Nat)
    (l : Listing) (hb0 : buyer ≠ "") (hl0 : lid ≠ 0)
    (hl : listingsGet s.listings lid = some l) (hst : l.status = "verified")
    (hbu : hasUser s.users buyer = true) :
    postBuyCredit s buyer lid =
      (⟨true, "Purchase successful", none⟩,
       { users := updateBalanceIn (updateBalanceIn s.users l.seller
           (-l.amount)) buyer l.amount,
         listings := deleteListing s.listings lid,
         chain := addBlock s.chain s.clock
           (.purchase lid buyer l.seller l.amount l.price s.clock),
         nextId := s.nextId, clock := s.clock + 1 }) := by
  simp [postBuyCredit, hb0, hl0, purchaseCredit, hl, hst, hbu,
    updateUserBalance]

/-! ## Claim theorems -/

/-- **C3.** The quorum gate with the four configured validators uses
threshold `T = 2*floor((N-1)/3) + 1 = 3` in both the prepare and the
commit phase; every always-YES vote function yields a committed
decision, every always-NO vote function yields an aborted decision,
and whenever the prepare YES-count is below the threshold the outcome
is aborted with the commit phase skipped (no commit votes are
collected). -/
theorem pbft_threshold_and_decisions :
    (∀ v : String → Bool, (collectPrepareMessages pbftNodes v).required = 3 ∧
        (collectCommitMessages pbftNodes v).required = 3) ∧
    (∀ pv cv : String → Bool, (∀ n, pv n = true) → (∀ n, cv n = true) →
        (startConsensus pbftNodes pv cv).success = true) ∧
    (∀ pv cv : String → Bool, (∀ n, pv n = false) →
        (startConsensus pbftNodes pv cv).success = false ∧
        (startConsensus pbftNodes pv cv).commit = none) ∧
    (∀ pv cv : String → Bool, countVotes pbftNodes pv < 3 →
        (startConsensus pbftNodes pv cv).success = false ∧
        (startConsensus pbftNodes pv cv).commit = none) := by
  refine ⟨fun v => ⟨rfl, rfl⟩, ?_, ?_, ?_⟩
  · intro pv cv hp hc
    simp [startConsensus, collectPrepareMessages, collectCommitMessages,
      countVotes, requiredVotes, pbftNodes, hp, hc]
  · intro pv cv hp
    simp [startConsensus, collectPrepareMessages, collectCommitMessages,
      countVotes, requiredVotes, pbftNodes, hp]
  · intro pv cv h
    have h3 : ¬ (requiredVotes pbftNodes ≤ countVotes pbftNodes pv) := by
      have : requiredVotes pbftNodes = 3 := rfl
      omega
    constructor <;>
      simp [startConsensus, collectPrepareMessages, h3]

/-- Witness for C3: the always-YES gate commits and the always-NO gate
aborts without a commit phase, on the concrete validator set. -/
theorem pbft_threshold_and_decisions_witness :
    (startConsensus pbftNodes (fun _ => true) (fun _ => true)).success =
      true ∧
    (startConsensus pbftNodes (fun _ => false) (fun _ => true)).success =
      false ∧
    (startConsensus pbftNodes (fun _ => false) (fun _ => true)).commit =
      none :=
  ⟨pbft_threshold_and_decisions.2.1 _ _ (fun _ => rfl) (fun _ => rfl),
   (pbft_threshold_and_decisions.2.2.1 _ _ (fun _ => rfl)).1,
   (pbft_threshold_and_decisions.2.2.1 _ _ (fun _ => rfl)).2⟩

/-- **C8.** `registerUser` fails with a duplicate-account error when
the username already exists and with an invalid-role error when the
role is outside {buyer, seller}; in both failure cases the state is
unchanged, and on success exactly the new account (balance 0) is
appended. -/
theorem registerUser_spec (s : ServerState) (username password role : String) :
    (hasUser s.users username = true →
      registerUser s username password role =
        (⟨false, "Username already exists"⟩, s)) ∧
    (hasUser s.users username = false → role ≠ "buyer" → role ≠ "seller" →
      registerUser s username password role = (⟨false, "Invalid role"⟩, s)) ∧
    (hasUser s.users username = false → (role = "buyer" ∨ role = "seller") →
      registerUser s username password role =
        (⟨true, "User registered successfully"⟩,
         { s with users :=
             s.users ++ [(username, ⟨username, password, role, 0⟩)] })) := by
  refine ⟨fun h => ?_, fun h h1 h2 => ?_, fun h hr => ?_⟩
  · simp [registerUser, h]
  · simp [registerUser, h, h1, h2]
  · simp [registerUser, h, hr]

/-- Witness for C8: on the initial state, re-registering `seller1`
fails as a duplicate, role `admin` is rejected, and a fresh
buyer-account registration succeeds. -/
theorem registerUser_spec_witness :
    registerUser initialState "seller1" "pw" "buyer" =
      (⟨false, "Username already exists"⟩, initialState) ∧
    registerUser initialState "trader9" "pw" "admin" =
      (⟨false, "Invalid role"⟩, initialState) ∧
    registerUser initialState "trader9" "pw" "buyer" =
      (⟨true, "User registered successfully"⟩,
       { initialState with users := initialState.users ++
           [("trader9", ⟨"trader9", "pw", "buyer", 0⟩)] }) :=
  ⟨(registerUser_spec initialState "seller1" "pw" "buyer").1 (by decide),
   (registerUser_spec initialState "trader9" "pw" "admin").2.1 (by decide)
     (by decide) (by decide),
   (registerUser_spec initialState "trader9" "pw" "buyer").2.2 (by decide)
     (Or.inl rfl)⟩

/-- **C5.** A purchase naming an absent listing, a non-verified
listing, or an absent buyer fails and leaves the state completely
unchanged: no balance changes, no listing mutation, no block
appended. -/
theorem purchase_failure_no_change (s : ServerState) (buyer : String)
    (lid : Nat)
    (h : listingsGet s.listings lid = none ∨
         (∃ l, listingsGet s.listings lid = some l ∧ l.status ≠ "verified") ∨
         hasUser s.users buyer = false) :
    (postBuyCredit s buyer lid).1.success = false ∧
    (postBuyCredit s buyer lid).2 = s := by
  by_cases hg : buyer = "" ∨ lid = 0
  · constructor <;> simp [postBuyCredit, hg]
  · push_neg at hg
    rcases h with h | ⟨l, hl, hst⟩ | h
    · constructor <;> simp [postBuyCredit, hg.1, hg.2, purchaseCredit, h]
    · constructor <;>
        simp [postBuyCredit, hg.1, hg.2, purchaseCredit, hl, hst]
    · cases hl : listingsGet s.listings lid with
      | none =>
          constructor <;>
            simp [postBuyCredit, hg.1, hg.2, purchaseCredit, hl]
      | some l =>
          by_cases hst : l.status = "verified" <;> constructor <;>
            simp [postBuyCredit, hg.1, hg.2, purchaseCredit, hl, hst, h]

/-- Witness for C5: buying the absent listing 5 on the initial state
fails and changes nothing. -/
theorem purchase_failure_no_change_witness :
    (postBuyCredit initialState "buyer1" 5).1.success = false ∧
    (postBuyCredit initialState "buyer1" 5).2 = initialState :=
  purchase_failure_no_change initialState "buyer1" 5 (Or.inl (by decide))

/-- **C6 counterexample.** The list-credit route only rejects falsy
(zero) quantities and prices: with quantity `-5 ≤ 0` the request is
not rejected - the listing is created and, with a committed gate, the
seller is credited the negative quantity and a block is appended. -/
theorem negative_amount_not_rejected :
    ((-5 : Int) ≤ 0) ∧
    (postListCredit initialState "seller1" (-5) 2 (fun _ => true)
      (fun _ => true)).1.success = true ∧
    usersGet (postListCredit initialState "seller1" (-5) 2 (fun _ => true)
      (fun _ => true)).2.users "seller1" =
      some ⟨"seller1", "password123", "seller", -5⟩ ∧
    (postListCredit initialState "seller1" (-5) 2 (fun _ => true)
      (fun _ => true)).2.listings ≠ [] ∧
    (postListCredit initialState "seller1" (-5) 2 (fun _ => true)
      (fun _ => true)).2.chain.length = initialState.chain.length + 1 := by
  decide

/-- **C6 amended.** An issuance request with quantity 0 or unitPrice 0
is rejected by the falsy-field validation before any state change;
negative quantities and prices are not rejected by the backend. -/
theorem zero_amount_rejected (s : ServerState) (username : String)
    (amount price : Int) (pv cv : String → Bool)
    (h : amount = 0 ∨ price = 0) :
    (postListCredit s username amount price pv cv).1 =
      ⟨false, "All fields are required", none⟩ ∧
    (postListCredit s username amount price pv cv).2 = s := by
  rcases h with h | h <;> constructor <;> simp [postListCredit, h]

/-- Witness for the amended C6: quantity 0 on the initial state is
rejected with no state change. -/
theorem zero_amount_rejected_witness :
    (postListCredit initialState "seller1" 0 2 (fun _ => true)
      (fun _ => true)).1 = ⟨false, "All fields are required", none⟩ ∧
    (postListCredit initialState "seller1" 0 2 (fun _ => true)
      (fun _ => true)).2 = initialState :=
  zero_amount_rejected initialState "seller1" 0 2 _ _ (Or.inl rfl)

/-- **C1.** A committed issuance by an existing seller credits exactly
the listed quantity to that seller's balance, changes no other
account, sets the listing's status to verified, and appends exactly
one block whose payload is the issuance record (listingId, seller,
amount, price, status verified). -/
theorem issuance_committed_effects (s : ServerState) (username : String)
    (amount price : Int) (pv cv : String → Bool) (u : User)
    (hname : username ≠ "") (hamt : amount ≠ 0) (hpr : price ≠ 0)
    (hu : usersGet s.users username = some u) (hrole : u.role = "seller")
    (hfresh : ∀ l ∈ s.listings, l.id < s.nextId)
    (hgate : (startConsensus pbftNodes pv cv).success = true) :
    usersGet (postListCredit s username amount price pv cv).2.users
        username = some { u with balance := u.balance + amount } ∧
    (∀ q, q ≠ username →
      usersGet (postListCredit s username amount price pv cv).2.users q =
        usersGet s.users q) ∧
    listingsGet (postListCredit s username amount price pv cv).2.listings
        s.nextId =
      some { id := s.nextId, seller := username, amount := amount,
             price := price, status := "verified", createdAt := s.clock } ∧
    (postListCredit s username amount price pv cv).2.chain =
      s.chain ++ [{ timestamp := s.clock + 1,
                    data := .listing s.nextId username amount price
                      (s.clock + 1) "verified",
                    previousHash := lastHash s.chain,
                    hash := digest (lastHash s.chain) (s.clock + 1)
                      (.listing s.nextId username amount price (s.clock + 1)
                        "verified") 0,
                    nonce := 0 }] ∧
    (postListCredit s username amount price pv cv).1 =
      ⟨true, "Carbon credit listed and undergoing verification",
        some s.nextId⟩ := by
  rw [postListCredit_committed s username amount price pv cv u hname hamt
    hpr hu hrole hgate]
  have hfresh' : ∀ l ∈ s.listings, l.id ≠ s.nextId :=
    fun l hl => Nat.ne_of_lt (hfresh l hl)
  refine ⟨?_, ?_, ?_, ?_, rfl⟩
  · show usersGet (updateBalanceIn s.users username amount) username = _
    rw [usersGet_updateBalanceIn]
    simp [hu]
  · intro q hq
    show usersGet (updateBalanceIn s.users username amount) q = _
    rw [usersGet_updateBalanceIn]
    simp [hq]
  · show listingsGet (setListingStatus
      (s.listings ++ [pendingListing s username amount price])
      s.nextId "verified") s.nextId = _
    rw [setListingStatus_append, setListingStatus_of_fresh _ hfresh',
      listingsGet_append_right _ (listingsGet_none_of_ne hfresh')]
    simp [setListingStatus, listingsGet, pendingListing]
  · show addBlock s.chain (s.clock + 1) _ = _
    simp [addBlock]

/-- Witness for C1: on the initial state, a committed issuance of 10
credits by `seller1` yields balance 10 for `seller1`, leaves `buyer1`
at 0, verifies listing 1 and grows the chain to 2 blocks. -/
theorem issuance_committed_effects_witness :
    usersGet (postListCredit initialState "seller1" 10 2 (fun _ => true)
      (fun _ => true)).2.users "seller1" =
      some ⟨"seller1", "password123", "seller", 10⟩ ∧
    usersGet (postListCredit initialState "seller1" 10 2 (fun _ => true)
      (fun _ => true)).2.users "buyer1" =
      some ⟨"buyer1", "password123", "buyer", 0⟩ ∧
    listingsGet (postListCredit initialState "seller1" 10 2 (fun _ => true)
      (fun _ => true)).2.listings 1 =
      some ⟨1, "seller1", 10, 2, "verified", 0⟩ ∧
    (postListCredit initialState "seller1" 10 2 (fun _ => true)
      (fun _ => true)).2.chain.length = 2 := by
  have h := issuance_committed_effects initialState "seller1" 10 2
    (fun _ => true) (fun _ => true)
    ⟨"seller1", "password123", "seller", 0⟩ (by decide) (by decide)
    (by decide) (by decide) rfl (by intro l hl; simp [initialState] at hl)
    (by decide)
  refine ⟨h.1.trans (by decide), (h.2.1 "buyer1" (by decide)).trans
    (by decide), h.2.2.1.trans (by decide), ?_⟩
  rw [h.2.2.2.1]
  decide

/-- **C4.** An aborted issuance leaves every balance unchanged, marks
the created listing failed, appends no block, and the listing does not
appear in the marketplace view. -/
theorem issuance_aborted_effects (s : ServerState) (username : String)
    (amount price : Int) (pv cv : String → Bool) (u : User)
    (hname : username ≠ "") (hamt : amount ≠ 0) (hpr : price ≠ 0)
    (hu : usersGet s.users username = some u) (hrole : u.role = "seller")
    (hfresh : ∀ l ∈ s.listings, l.id < s.nextId)
    (hgate : (startConsensus pbftNodes pv cv).success = false) :
    (postListCredit s username amount price pv cv).2.users = s.users ∧
    (postListCredit s username amount price pv cv).2.chain = s.chain ∧
    listingsGet (postListCredit s username amount price pv cv).2.listings
        s.nextId =
      some { id := s.nextId, seller := username, amount := amount,
             price := price, status := "failed", createdAt := s.clock } ∧
    (∀ m ∈ getMarketplace (postListCredit s username amount price pv cv).2,
      m.id ≠ s.nextId) := by
  rw [postListCredit_aborted s username amount price pv cv u hname hamt
    hpr hu hrole hgate]
  have hfresh' : ∀ l ∈ s.listings, l.id ≠ s.nextId :=
    fun l hl => Nat.ne_of_lt (hfresh l hl)
  have hset : setListingStatus
      (s.listings ++ [pendingListing s username amount price])
      s.nextId "failed" =
      s.listings ++ [{ pendingListing s username amount price with
        status := "failed" }] := by
    rw [setListingStatus_append, setListingStatus_of_fresh _ hfresh']
    simp [setListingStatus, pendingListing]
  refine ⟨rfl, rfl, ?_, ?_⟩
  · show listingsGet (setListingStatus
      (s.listings ++ [pendingListing s username amount price])
      s.nextId "failed") s.nextId = _
    rw [hset, listingsGet_append_right _ (listingsGet_none_of_ne hfresh')]
    simp [listingsGet, pendingListing]
  · intro m hm
    simp only [getMarketplace, hset, List.mem_map, List.mem_filter] at hm
    obtain ⟨l, ⟨hl, hlv⟩, rfl⟩ := hm
    rcases List.mem_append.mp hl with hl | hl
    · exact hfresh' l hl
    · simp only [List.mem_singleton] at hl
      subst hl
      simp [pendingListing] at hlv

/-- Witness for C4: on the initial state, an issuance whose gate
aborts (always-NO votes) leaves both balances at 0, appends no block,
marks listing 1 failed, and the marketplace stays empty. -/
theorem issuance_aborted_effects_witness :
    (postListCredit initialState "seller1" 10 2 (fun _ => false)
      (fun _ => true)).2.users = initialState.users ∧
    (postListCredit initialState "seller1" 10 2 (fun _ => false)
      (fun _ => true)).2.chain = initialState.chain ∧
    listingsGet (postListCredit initialState "seller1" 10 2 (fun _ => false)
      (fun _ => true)).2.listings 1 =
      some ⟨1, "seller1", 10, 2, "failed", 0⟩ := by
  have h := issuance_aborted_effects initialState "seller1" 10 2
    (fun _ => false) (fun _ => true)
    ⟨"seller1", "password123", "seller", 0⟩ (by decide) (by decide)
    (by decide) (by decide) rfl (by intro l hl; simp [initialState] at hl)
    (by decide)
  exact ⟨h.1, h.2.1, h.2.2.1.trans (by decide)⟩

/-- **C2.** Purchasing a verified listing of quantity q, with the
buyer and the seller two existing distinct accounts, debits the seller
by q, credits the buyer by q, touches no other account, deletes the
listing (it leaves the marketplace), appends exactly one transfer
block, and preserves the sum of the two balances. -/
theorem purchase_effects (s : ServerState) (buyer : String) (lid : Nat)
    (l : Listing) (us ub : User)
    (hb0 : buyer ≠ "") (hl0 : lid ≠ 0)
    (hl : listingsGet s.listings lid = some l)
    (hst : l.status = "verified")
    (hs : usersGet s.users l.seller = some us)
    (hb : usersGet s.users buyer = some ub)
    (hne : buyer ≠ l.seller) :
    usersGet (postBuyCredit s buyer lid).2.users l.seller =
      some { us with balance := us.balance - l.amount } ∧
    usersGet (postBuyCredit s buyer lid).2.users buyer =
      some { ub with balance := ub.balance + l.amount } ∧
    (∀ q, q ≠ buyer → q ≠ l.seller →
      usersGet (postBuyCredit s buyer lid).2.users q =
        usersGet s.users q) ∧
    listingsGet (postBuyCredit s buyer lid).2.listings lid = none ∧
    (∀ m ∈ getMarketplace (postBuyCredit s buyer lid).2, m.id ≠ lid) ∧
    (postBuyCredit s buyer lid).2.chain =
      s.chain ++ [{ timestamp := s.clock,
                    data := .purchase lid buyer l.seller l.amount l.price
                      s.clock,
                    previousHash := lastHash s.chain,
                    hash := digest (lastHash s.chain) s.clock
                      (.purchase lid buyer l.seller l.amount l.price
                        s.clock) 0,
                    nonce := 0 }] ∧
    (us.balance - l.amount) + (ub.balance + l.amount) =
      us.balance + ub.balance ∧
    (postBuyCredit s buyer lid).1.success = true := by
  have hbu : hasUser s.users buyer = true := by
    unfold hasUser; rw [hb]; rfl
  rw [postBuyCredit_success s buyer lid l hb0 hl0 hl hst hbu]
  refine ⟨?_, ?_, ?_, ?_, ?_, ?_, by ring, rfl⟩
  · show usersGet (updateBalanceIn (updateBalanceIn s.users l.seller
      (-l.amount)) buyer l.amount) l.seller = _
    rw [usersGet_updateBalanceIn, if_neg (fun hc => hne hc.symm),
      usersGet_updateBalanceIn, if_pos rfl, hs]
    simp [sub_eq_add_neg]
  · show usersGet (updateBalanceIn (updateBalanceIn s.users l.seller
      (-l.amount)) buyer l.amount) buyer = _
    rw [usersGet_updateBalanceIn, if_pos rfl, usersGet_updateBalanceIn,
      if_neg hne, hb]
    rfl
  · intro q hq1 hq2
    show usersGet (updateBalanceIn (updateBalanceIn s.users l.seller
      (-l.amount)) buyer l.amount) q = _
    rw [usersGet_updateBalanceIn, if_neg hq1, usersGet_updateBalanceIn,
      if_neg hq2]
  · exact listingsGet_deleteListing_self s.listings lid
  · intro m hm
    simp only [getMarketplace, List.mem_map, List.mem_filter,
      deleteListing, decide_not] at hm
    obtain ⟨x, ⟨hx, _⟩, rfl⟩ := hm
    simp only [List.mem_filter, decide_not, Bool.not_eq_eq_eq_not,
      Bool.not_true, decide_eq_false_iff_not] at hx
    exact hx.2
  · show addBlock s.chain s.clock _ = _
    simp [addBlock]

/-- Witness for C2: after a committed issuance of 5 credits by
`seller1`, a purchase of listing 1 by `buyer1` moves the 5 credits
(seller 5 → 0, buyer 0 → 5), removes the listing and grows the chain
to 3 blocks. -/
theorem purchase_effects_witness :
    usersGet (postBuyCredit (postListCredit initialState "seller1" 5 1
      (fun _ => true) (fun _ => true)).2 "buyer1" 1).2.users "seller1" =
      some ⟨"seller1", "password123", "seller", 0⟩ ∧
    usersGet (postBuyCredit (postListCredit initialState "seller1" 5 1
      (fun _ => true) (fun _ => true)).2 "buyer1" 1).2.users "buyer1" =
      some ⟨"buyer1", "password123", "buyer", 5⟩ ∧
    listingsGet (postBuyCredit (postListCredit initialState "seller1" 5 1
      (fun _ => true) (fun _ => true)).2 "buyer1" 1).2.listings 1 =
      none ∧
    (postBuyCredit (postListCredit initialState "seller1" 5 1
      (fun _ => true) (fun _ => true)).2 "buyer1" 1).2.chain.length = 3 := by
  have h := purchase_effects (postListCredit initialState "seller1" 5 1
    (fun _ => true) (fun _ => true)).2 "buyer1" 1
    ⟨1, "seller1", 5, 1, "verified", 0⟩
    ⟨"seller1", "password123", "seller", 5⟩
    ⟨"buyer1", "password123", "buyer", 0⟩
    (by decide) (by decide) (by decide) rfl (by decide) (by decide)
    (by decide)
  refine ⟨h.1.trans (by decide), h.2.1.trans (by decide), h.2.2.2.1, ?_⟩
  rw [h.2.2.2.2.2.1]
  decide

/-! ## Ledger integrity lemmas -/

theorem verifyFrom_eq_none_of_chained :
    ∀ {c : List Block} {prev i : Nat}, Chained prev c →
      verifyFrom prev i c = none := by
  intro c
  induction c with
  | nil => intro prev i _; rfl
  | cons b rest ih =>
      intro prev i h
      obtain ⟨h1, h2, h3⟩ := h
      simp only [verifyFrom, if_pos (And.intro h1 h2)]
      exact ih h3

theorem chained_append {c : List Block} {prev : Nat} {b : Block}
    (h : Chained prev c)
    (hprev : b.previousHash = ((c.getLast?).map Block.hash).getD prev)
    (hhash : b.hash = digest b.previousHash b.timestamp b.data b.nonce) :
    Chained prev (c ++ [b]) := by
  induction c generalizing prev with
  | nil =>
      refine ⟨by simpa using hprev, hhash, trivial⟩
  | cons x rest ih =>
      obtain ⟨h1, h2, h3⟩ := h
      refine ⟨h1, h2, ih h3 ?_⟩
      cases rest with
      | nil => simpa using hprev
      | cons y ys => simpa [List.getLast?_cons_cons] using hprev

theorem chained_link :
    ∀ {c : List Block} {prev : Nat}, Chained prev c →
      ∀ i (h : i + 1 < c.length),
        (c.get ⟨i + 1, h⟩).previousHash =
          (c.get ⟨i, Nat.lt_of_succ_lt h⟩).hash := by
  intro c
  induction c with
  | nil => intro prev _ i h; simp at h
  | cons b rest ih =>
      intro prev hc i h
      obtain ⟨h1, h2, h3⟩ := hc
      cases i with
      | zero =>
          cases rest with
          | nil => simp at h
          | cons y ys => exact h3.1
      | succ j =>
          exact ih h3 j (Nat.lt_of_succ_lt_succ h)

theorem chained_buildChainFrom (entries : List (Nat × BlockData)) :
    ∀ c : List Block, Chained 0 c → c ≠ [] →
      Chained 0 (buildChainFrom c entries) ∧
      buildChainFrom c entries ≠ [] ∧
      (buildChainFrom c entries).head? = c.head? := by
  induction entries with
  | nil => intro c h hne; exact ⟨h, hne, rfl⟩
  | cons e rest ih =>
      intro c h hne
      have hlast : ∃ x, c.getLast? = some x := by
        cases c with
        | nil => exact absurd rfl hne
        | cons a as => exact ⟨(a :: as).getLast (by simp),
            List.getLast?_eq_getLast _ (by simp)⟩
      obtain ⟨x, hx⟩ := hlast
      have hb : addBlock c e.1 e.2 =
          c ++ [{ timestamp := e.1, data := e.2,
                  previousHash := lastHash c,
                  hash := digest (lastHash c) e.1 e.2 0, nonce := 0 }] := rfl
      have hstep : Chained 0 (addBlock c e.1 e.2) := by
        rw [hb]
        apply chained_append h
        · show lastHash c = ((c.getLast?).map Block.hash).getD 0
          simp [lastHash, hx]
        · simp only []
      have hne' : addBlock c e.1 e.2 ≠ [] := by simp [addBlock]
      have hhead : (addBlock c e.1 e.2).head? = c.head? := by
        unfold addBlock
        cases c with
        | nil => exact absurd rfl hne
        | cons a as => simp
      have hfold : buildChainFrom c (e :: rest) =
          buildChainFrom (addBlock c e.1 e.2) rest := rfl
      rw [hfold]
      obtain ⟨a, b', c'⟩ := ih (addBlock c e.1 e.2) hstep hne'
      exact ⟨a, b', c'.trans hhead⟩

/-- **C9.** Every chain built only through `append` starts with the
fixed genesis block (whose previousHash is the constant 0), links
every later block's previousHash to the hash of the block before it,
and passes `verify` with no reported integrity break. -/
theorem chain_integrity (entries : List (Nat × BlockData)) :
    (buildChain entries).head? = some genesisBlock ∧
    genesisBlock.previousHash = 0 ∧
    (∀ i (h : i + 1 < (buildChain entries).length),
      ((buildChain entries).get ⟨i + 1, h⟩).previousHash =
        ((buildChain entries).get ⟨i, Nat.lt_of_succ_lt h⟩).hash) ∧
    verify (buildChain entries) = none := by
  have h0 : Chained 0 initialChain := ⟨rfl, rfl, trivial⟩
  obtain ⟨hch, _, hhead⟩ :=
    chained_buildChainFrom entries initialChain h0 (by simp [initialChain])
  exact ⟨hhead, rfl, fun i h => chained_link hch i h,
    verifyFrom_eq_none_of_chained hch⟩

/-- Witness for C9: a concrete two-append chain links block 1 to block
0 and verifies clean. -/
theorem chain_integrity_witness :
    ((buildChain [(1, .genesis), (2, .genesis)]).get
        ⟨1, by decide⟩).previousHash =
      ((buildChain [(1, .genesis), (2, .genesis)]).get ⟨0, by decide⟩).hash ∧
    verify (buildChain [(1, .genesis), (2, .genesis)]) = none := by
  have h := chain_integrity [(1, .genesis), (2, .genesis)]
  exact ⟨h.2.2.1 0 (by decide), h.2.2.2⟩

/-! ## Price noninterference lemmas -/

theorem stripPrice_setListingStatus (ls : List Listing) (lid : Nat)
    (st : String) :
    (setListingStatus ls lid st).map stripPrice =
      setListingStatus (ls.map stripPrice) lid st := by
  unfold setListingStatus
  rw [List.map_map, List.map_map]
  refine List.map_congr_left ?_
  intro a _
  by_cases h : a.id = lid <;> simp [stripPrice, h]

theorem stripPrice_deleteListing (ls : List Listing) (lid : Nat) :
    (deleteListing ls lid).map stripPrice =
      deleteListing (ls.map stripPrice) lid := by
  induction ls with
  | nil => rfl
  | cons x rest ih =>
      by_cases h : x.id = lid <;>
        simp [deleteListing, stripPrice, h] <;>
        simpa [deleteListing] using ih

theorem listingsGet_strip (ls : List Listing) (lid : Nat) :
    (listingsGet ls lid).map stripPrice =
      listingsGet (ls.map stripPrice) lid := by
  induction ls with
  | nil => rfl
  | cons x rest ih =>
      by_cases h : x.id = lid <;> simp [listingsGet, stripPrice, h, ih]

/-- **C10.** A purchase of a verified listing by an existing buyer
succeeds regardless of the buyer's current balance (success depends
only on the listing's existence and status and the buyer's existence,
never on any balance), the unit price is only reported back in the
result, and no operation ever lets the recorded prices influence any
account balance: two states that differ only in unit prices evolve to
states that again differ only in unit prices, with identical user
balances, under every public operation. -/
theorem price_never_moves_balances :
    (∀ (s : ServerState) (buyer : String) (lid : Nat) (l : Listing),
      buyer ≠ "" → lid ≠ 0 → listingsGet s.listings lid = some l →
      l.status = "verified" → hasUser s.users buyer = true →
      (postBuyCredit s buyer lid).1.success = true ∧
      (purchaseCredit s buyer lid).1 =
        ⟨true, "", l.seller, l.amount, l.price⟩) ∧
    (∀ (s t : ServerState) (op : Op), PriceAgnostic s t →
      PriceAgnostic (applyOp s op) (applyOp t op)) := by
  constructor
  · intro s buyer lid l hb0 hl0 hl hst hbu
    constructor
    · rw [postBuyCredit_success s buyer lid l hb0 hl0 hl hst hbu]
    · simp [purchaseCredit, hl, hst, hbu]
  · intro s t op hpa
    obtain ⟨hu, hls, hn, hc⟩ := hpa
    have hget : ∀ lid, (listingsGet s.listings lid).map stripPrice =
        (listingsGet t.listings lid).map stripPrice := by
      intro lid
      rw [listingsGet_strip, listingsGet_strip, hls]
    cases op with
    | register un pw r =>
        show PriceAgnostic (postRegister s un pw r).2 (postRegister t un pw r).2
        have key : ∀ w : ServerState,
            (postRegister w un pw r).2.users =
              (if un = "" ∨ pw = "" ∨ r = "" then w.users
               else if hasUser w.users un = true then w.users
               else if r = "buyer" ∨ r = "seller" then
                 w.users ++ [(un, ⟨un, pw, r, 0⟩)]
               else w.users) ∧
            (postRegister w un pw r).2.listings = w.listings ∧
            (postRegister w un pw r).2.nextId = w.nextId ∧
            (postRegister w un pw r).2.clock = w.clock := by
          intro w
          by_cases hg : un = "" ∨ pw = "" ∨ r = ""
          · simp [postRegister, hg]
          · by_cases hdup : hasUser w.users un = true
            · simp [postRegister, registerUser, hg, hdup]
            · by_cases hr : r = "buyer" ∨ r = "seller" <;>
                simp [postRegister, registerUser, hg, hdup, hr]
        refine ⟨?_, ?_, ?_, ?_⟩
        · rw [(key s).1, (key t).1, hu]
        · rw [(key s).2.1, (key t).2.1]
          exact hls
        · rw [(key s).2.2.1, (key t).2.2.1]
          exact hn
        · rw [(key s).2.2.2, (key t).2.2.2]
          exact hc
    | listCredit un amount price pv cv =>
        show PriceAgnostic (postListCredit s un amount price pv cv).2
          (postListCredit t un amount price pv cv).2
        by_cases hg : un = "" ∨ amount = 0 ∨ price = 0
        · simp only [postListCredit, if_pos hg]
          exact ⟨hu, hls, hn, hc⟩
        · push_neg at hg
          cases hug : usersGet s.users un with
          | none =>
              have hugt : usersGet t.users un = none := by rw [← hu]; exact hug
              have hss : (postListCredit s un amount price pv cv).2 = s := by
                simp [postListCredit, hg.1, hg.2.1, hg.2.2, hug]
              have htt : (postListCredit t un amount price pv cv).2 = t := by
                simp [postListCredit, hg.1, hg.2.1, hg.2.2, hugt]
              rw [hss, htt]
              exact ⟨hu, hls, hn, hc⟩
          | some u0 =>
              have hugt : usersGet t.users un = some u0 := by
                rw [← hu]; exact hug
              by_cases hrole : u0.role = "seller"
              · have hpend : pendingListing t un amount price =
                    pendingListing s un amount price := by
                  simp [pendingListing, hn, hc]
                by_cases hgate :
                    (startConsensus pbftNodes pv cv).success = true
                · rw [postListCredit_committed s un amount price pv cv u0
                    hg.1 hg.2.1 hg.2.2 hug hrole hgate,
                    postListCredit_committed t un amount price pv cv u0
                    hg.1 hg.2.1 hg.2.2 hugt hrole hgate]
                  refine ⟨?_, ?_, ?_, ?_⟩
                  · show updateBalanceIn s.users un amount =
                      updateBalanceIn t.users un amount
                    rw [hu]
                  · show (setListingStatus
                      (s.listings ++ [pendingListing s un amount price])
                      s.nextId "verified").map stripPrice = _
                    rw [stripPrice_setListingStatus,
                      stripPrice_setListingStatus, List.map_append,
                      List.map_append, hls, hn, hpend]
                  · show s.nextId + 1 = t.nextId + 1
                    rw [hn]
                  · show s.clock + 2 = t.clock + 2
                    rw [hc]
                · have hgate' :
                      (startConsensus pbftNodes pv cv).success = false :=
                    Bool.not_eq_true _ ▸ Bool.eq_false_iff.mpr hgate
                  rw [postListCredit_aborted s un amount price pv cv u0
                    hg.1 hg.2.1 hg.2.2 hug hrole hgate',
                    postListCredit_aborted t un amount price pv cv u0
                    hg.1 hg.2.1 hg.2.2 hugt hrole hgate']
                  refine ⟨hu, ?_, ?_, ?_⟩
                  · show (setListingStatus
                      (s.listings ++ [pendingListing s un amount price])
                      s.nextId "failed").map stripPrice = _
                    rw [stripPrice_setListingStatus,
                      stripPrice_setListingStatus, List.map_append,
                      List.map_append, hls, hn, hpend]
                  · show s.nextId + 1 = t.nextId + 1
                    rw [hn]
                  · show s.clock + 1 = t.clock + 1
                    rw [hc]
              · have hss : (postListCredit s un amount price pv cv).2 = s := by
                  simp [postListCredit, hg.1, hg.2.1, hg.2.2, hug, hrole]
                have htt : (postListCredit t un amount price pv cv).2 = t := by
                  simp [postListCredit, hg.1, hg.2.1, hg.2.2, hugt, hrole]
                rw [hss, htt]
                exact ⟨hu, hls, hn, hc⟩
    | buyCredit buyer lid =>
        show PriceAgnostic (postBuyCredit s buyer lid).2
          (postBuyCredit t buyer lid).2
        by_cases hg : buyer = "" ∨ lid = 0
        · simp only [postBuyCredit, if_pos hg]
          exact ⟨hu, hls, hn, hc⟩
        · push_neg at hg
          cases hlg : listingsGet s.listings lid with
          | none =>
              have hlgt : listingsGet t.listings lid = none := by
                have hx := hget lid
                rw [hlg] at hx
                exact Option.map_eq_none'.mp hx.symm
              have hss : (postBuyCredit s buyer lid).2 = s := by
                simp [postBuyCredit, hg.1, hg.2, purchaseCredit, hlg]
              have htt : (postBuyCredit t buyer lid).2 = t := by
                simp [postBuyCredit, hg.1, hg.2, purchaseCredit, hlgt]
              rw [hss, htt]
              exact ⟨hu, hls, hn, hc⟩
          | some l =>
              have hx := hget lid
              rw [hlg] at hx
              cases hlgt : listingsGet t.listings lid with
              | none => rw [hlgt] at hx; simp at hx
              | some lt =>
                  rw [hlgt] at hx
                  have hx2 : stripPrice l = stripPrice lt := by
                    simpa using hx
                  have hsell : l.seller = lt.seller := by
                    simpa [stripPrice] using congrArg Listing.seller hx2
                  have hamt : l.amount = lt.amount := by
                    simpa [stripPrice] using congrArg Listing.amount hx2
                  have hstl : l.status = lt.status := by
                    simpa [stripPrice] using congrArg Listing.status hx2
                  by_cases hst : l.status = "verified"
                  · have hstt : lt.status = "verified" := hstl ▸ hst
                    by_cases hbu : hasUser s.users buyer = true
                    · have hbut : hasUser t.users buyer = true := by
                        rw [← hu]; exact hbu
                      rw [postBuyCredit_success s buyer lid l hg.1 hg.2
                        hlg hst hbu,
                        postBuyCredit_success t buyer lid lt hg.1 hg.2
                        hlgt hstt hbut]
                      refine ⟨?_, ?_, ?_, ?_⟩
                      · show updateBalanceIn (updateBalanceIn s.users
                          l.seller (-l.amount)) buyer l.amount = _
                        rw [hu, hsell, hamt]
                      · show (deleteListing s.listings lid).map
                          stripPrice = _
                        rw [stripPrice_deleteListing,
                          stripPrice_deleteListing, hls]
                      · exact hn
                      · show s.clock + 1 = t.clock + 1
                        rw [hc]
                    · have hbuf : hasUser s.users buyer = false :=
                        Bool.eq_false_iff.mpr hbu
                      have hbut : hasUser t.users buyer = false := by
                        rw [← hu]; exact hbuf
                      have hss : (postBuyCredit s buyer lid).2 = s := by
                        simp [postBuyCredit, hg.1, hg.2, purchaseCredit,
                          hlg, hst, hbuf]
                      have htt : (postBuyCredit t buyer lid).2 = t := by
                        simp [postBuyCredit, hg.1, hg.2, purchaseCredit,
                          hlgt, hstt, hbut]
                      rw [hss, htt]
                      exact ⟨hu, hls, hn, hc⟩
                  · have hstt : ¬ lt.status = "verified" := hstl ▸ hst
                    have hss : (postBuyCredit s buyer lid).2 = s := by
                      simp [postBuyCredit, hg.1, hg.2, purchaseCredit,
                        hlg, hst]
                    have htt : (postBuyCredit t buyer lid).2 = t := by
                      simp [postBuyCredit, hg.1, hg.2, purchaseCredit,
                        hlgt, hstt]
                    rw [hss, htt]
                    exact ⟨hu, hls, hn, hc⟩

/-- Witness for C10: a buyer with balance 0 successfully buys listing
1, and running the same purchase in two marketplaces that differ only
in the listing's unit price (1 vs 9) leaves identical user tables. -/
theorem price_never_moves_balances_witness :
    (postBuyCredit (postListCredit initialState "seller1" 5 1
      (fun _ => true) (fun _ => true)).2 "buyer1" 1).1.success = true ∧
    (applyOp (postListCredit initialState "seller1" 5 1 (fun _ => true)
      (fun _ => true)).2 (.buyCredit "buyer1" 1)).users =
      (applyOp (postListCredit initialState "seller1" 5 9 (fun _ => true)
        (fun _ => true)).2 (.buyCredit "buyer1" 1)).users :=
  ⟨(price_never_moves_balances.1 _ "buyer1" 1
      ⟨1, "seller1", 5, 1, "verified", 0⟩ (by decide) (by decide)
      (by decide) rfl (by decide)).1,
   (price_never_moves_balances.2 _ _ (.buyCredit "buyer1" 1)
      ⟨by decide, by decide, by decide, by decide⟩).1⟩

/-! ## Balance-invariant lemmas -/

theorem vsum_nil (k : String) : vsum [] k = 0 := rfl

theorem vsum_cons (l : Listing) (ls : List Listing) (k : String) :
    vsum (l :: ls) k =
      (if l.status = "verified" ∧ l.seller = k then l.amount else 0) +
        vsum ls k := by
  by_cases h : l.status = "verified" ∧ l.seller = k <;>
    simp [vsum, List.filter_cons, h]

theorem vsum_append (ls ls' : List Listing) (k : String) :
    vsum (ls ++ ls') k = vsum ls k + vsum ls' k := by
  simp [vsum, List.filter_append]

theorem vsum_nonneg {ls : List Listing} (k : String)
    (h : ∀ l ∈ ls, l.status = "verified" → 0 ≤ l.amount) :
    0 ≤ vsum ls k := by
  induction ls with
  | nil => simp [vsum]
  | cons x rest ih =>
      rw [vsum_cons]
      have h1 : 0 ≤ if x.status = "verified" ∧ x.seller = k
          then x.amount else 0 := by
        by_cases hx : x.status = "verified" ∧ x.seller = k
        · rw [if_pos hx]; exact h x (by simp) hx.1
        · rw [if_neg hx]
      have h2 : 0 ≤ vsum rest k :=
        ih (fun l hl => h l (List.mem_cons_of_mem _ hl))
      omega

theorem vsum_eq_zero_of_no_seller {ls : List Listing} {k : String}
    (h : ∀ l ∈ ls, l.seller ≠ k) : vsum ls k = 0 := by
  induction ls with
  | nil => rfl
  | cons x rest ih =>
      rw [vsum_cons, ih (fun l hl => h l (List.mem_cons_of_mem _ hl))]
      have hx := h x (by simp)
      simp [hx]

theorem deleteListing_of_not_mem {ls : List Listing} {lid : Nat}
    (h : ∀ l ∈ ls, l.id ≠ lid) : deleteListing ls lid = ls :=
  List.filter_eq_self.mpr (fun a ha => by simpa using h a ha)

theorem vsum_deleteListing {ls : List Listing} {lid : Nat} {l : Listing}
    (hnd : (ls.map Listing.id).Nodup)
    (hl : listingsGet ls lid = some l) (k : String) :
    vsum (deleteListing ls lid) k =
      vsum ls k -
        (if l.status = "verified" ∧ l.seller = k then l.amount else 0) := by
  induction ls with
  | nil => simp [listingsGet] at hl
  | cons x rest ih =>
      rw [List.map_cons, List.nodup_cons] at hnd
      by_cases h1 : x.id = lid
      · rw [listingsGet, if_pos h1] at hl
        injection hl with hl
        subst hl
        have hrest : ∀ l2 ∈ rest, l2.id ≠ lid := by
          intro l2 hl2 hcon
          exact hnd.1 (h1 ▸ hcon ▸ List.mem_map_of_mem Listing.id hl2)
        have hdel : deleteListing (x :: rest) lid = rest := by
          have : deleteListing rest lid = rest := deleteListing_of_not_mem hrest
          simpa [deleteListing, h1] using this
        rw [hdel, vsum_cons]
        omega
      · rw [listingsGet, if_neg h1] at hl
        have hdel : deleteListing (x :: rest) lid =
            x :: deleteListing rest lid := by
          simp [deleteListing, h1]
        rw [hdel, vsum_cons, vsum_cons, ih hnd.2 hl]
        omega

theorem mem_updateBalanceIn {m : List (String × User)} {k : String}
    {a : Int} {p : String × User} (hp : p ∈ updateBalanceIn m k a) :
    ∃ q ∈ m, p.1 = q.1 ∧
      p.2.balance = q.2.balance + (if q.1 = k then a else 0) := by
  obtain ⟨q, hq, rfl⟩ := List.mem_map.mp hp
  by_cases h : q.1 = k <;> exact ⟨q, hq, by simp [h], by simp [h]⟩

theorem hasUser_of_usersGet {m : List (String × User)} {k : String}
    {u : User} (h : usersGet m k = some u) : hasUser m k = true := by
  unfold hasUser
  rw [h]
  rfl

theorem goodState_mk (users : List (String × User)) (listings : List Listing)
    (chain : List Block) (nextId clock : Nat)
    (hA : ∀ p ∈ users, vsum listings p.1 ≤ p.2.balance)
    (hB : ∀ l ∈ listings, l.status = "verified" → 0 ≤ l.amount)
    (hC : ∀ l ∈ listings, l.id < nextId)
    (hD : (listings.map Listing.id).Nodup)
    (hF : ∀ l ∈ listings, hasUser users l.seller = true) :
    GoodState ⟨users, listings, chain, nextId, clock⟩ :=
  ⟨hA, hB, hC, hD, hF⟩

theorem goodState_initial : GoodState initialState := by
  refine ⟨?_, ?_, ?_, ?_, ?_⟩ <;> decide

theorem goodState_applyOp {s : ServerState} {op : Op}
    (hs : GoodState s) (hop : NonNegOp op) : GoodState (applyOp s op) := by
  obtain ⟨A, B, C, D, F⟩ := hs
  cases op with
  | register un pw r =>
      show GoodState (postRegister s un pw r).2
      by_cases hg : un = "" ∨ pw = "" ∨ r = ""
      · have hss : (postRegister s un pw r).2 = s := by
          simp [postRegister, hg]
        rw [hss]
        exact ⟨A, B, C, D, F⟩
      · by_cases hdup : hasUser s.users un = true
        · have hss : (postRegister s un pw r).2 = s := by
            simp [postRegister, registerUser, hg, hdup]
          rw [hss]
          exact ⟨A, B, C, D, F⟩
        · by_cases hr : r = "buyer" ∨ r = "seller"
          · have hss : (postRegister s un pw r).2 =
                { s with users := s.users ++ [(un, ⟨un, pw, r, 0⟩)] } := by
              simp [postRegister, registerUser, hg, hdup, hr]
            rw [hss]
            refine ⟨?_, B, C, D, ?_⟩
            · intro p hp
              rcases List.mem_append.mp hp with hp | hp
              · exact A p hp
              · rw [List.mem_singleton] at hp
                subst hp
                have hnone : ∀ l ∈ s.listings, l.seller ≠ un := by
                  intro l hl hcon
                  exact hdup (hcon ▸ F l hl)
                show vsum s.listings un ≤ (0 : Int)
                rw [vsum_eq_zero_of_no_seller hnone]
            · intro l hl
              exact hasUser_append (F l hl)
          · have hss : (postRegister s un pw r).2 = s := by
              simp [postRegister, registerUser, hg, hdup, hr]
            rw [hss]
            exact ⟨A, B, C, D, F⟩
  | listCredit un amount price pv cv =>
      show GoodState (postListCredit s un amount price pv cv).2
      have hamt : (0 : Int) ≤ amount := hop
      by_cases hg : un = "" ∨ amount = 0 ∨ price = 0
      · have hss : (postListCredit s un amount price pv cv).2 = s := by
          simp [postListCredit, hg]
        rw [hss]
        exact ⟨A, B, C, D, F⟩
      · push_neg at hg
        cases hug : usersGet s.users un with
        | none =>
            have hss : (postListCredit s un amount price pv cv).2 = s := by
              simp [postListCredit, hg.1, hg.2.1, hg.2.2, hug]
            rw [hss]
            exact ⟨A, B, C, D, F⟩
        | some u0 =>
            by_cases hrole : u0.role = "seller"
            · have hfresh : ∀ l ∈ s.listings, l.id ≠ s.nextId :=
                fun l hl => Nat.ne_of_lt (C l hl)
              by_cases hgate :
                  (startConsensus pbftNodes pv cv).success = true
              · have hlist : setListingStatus
                    (s.listings ++ [pendingListing s un amount price])
                    s.nextId "verified" =
                    s.listings ++
                      [{ id := s.nextId, seller := un, amount := amount,
                         price := price, status := "verified",
                         createdAt := s.clock }] := by
                  rw [setListingStatus_append,
                    setListingStatus_of_fresh _ hfresh]
                  simp [setListingStatus, pendingListing]
                rw [postListCredit_committed s un amount price pv cv u0
                  hg.1 hg.2.1 hg.2.2 hug hrole hgate, hlist]
                apply goodState_mk
                · intro p hp
                  obtain ⟨q, hq, hp1, hp2⟩ := mem_updateBalanceIn hp
                  rw [vsum_append, vsum_cons, vsum_nil, hp1, hp2]
                  have hA := A q hq
                  have e1 : (if ("verified" : String) = "verified" ∧
                      un = q.1 then amount else 0) =
                      (if q.1 = un then amount else 0) := by
                    by_cases h : q.1 = un
                    · rw [if_pos ⟨rfl, h.symm⟩, if_pos h]
                    · rw [if_neg (fun hc => h hc.2.symm), if_neg h]
                  rw [e1]
                  by_cases h : q.1 = un
                  · rw [if_pos h]
                    omega
                  · rw [if_neg h]
                    omega
                · intro l hl hlv
                  rcases List.mem_append.mp hl with hl | hl
                  · exact B l hl hlv
                  · rw [List.mem_singleton] at hl
                    subst hl
                    exact hamt
                · intro l hl
                  rcases List.mem_append.mp hl with hl | hl
                  · exact Nat.lt_succ_of_lt (C l hl)
                  · rw [List.mem_singleton] at hl
                    subst hl
                    exact Nat.lt_succ_self _
                · rw [List.map_append]
                  refine List.Nodup.append D (by simp) ?_
                  intro a ha hb
                  simp only [List.map_cons, List.map_nil,
                    List.mem_singleton] at hb
                  subst hb
                  obtain ⟨l, hl, hid⟩ := List.mem_map.mp ha
                  exact absurd (hid ▸ C l hl) (lt_irrefl _)
                · intro l hl
                  rw [hasUser_updateBalanceIn]
                  rcases List.mem_append.mp hl with hl | hl
                  · exact F l hl
                  · rw [List.mem_singleton] at hl
                    subst hl
                    exact hasUser_of_usersGet hug
              · have hgate' :
                    (startConsensus pbftNodes pv cv).success = false :=
                  Bool.eq_false_iff.mpr hgate
                have hlist : setListingStatus
                    (s.listings ++ [pendingListing s un amount price])
                    s.nextId "failed" =
                    s.listings ++
                      [{ id := s.nextId, seller := un, amount := amount,
                         price := price, status := "failed",
                         createdAt := s.clock }] := by
                  rw [setListingStatus_append,
                    setListingStatus_of_fresh _ hfresh]
                  simp [setListingStatus, pendingListing]
                rw [postListCredit_aborted s un amount price pv cv u0
                  hg.1 hg.2.1 hg.2.2 hug hrole hgate', hlist]
                apply goodState_mk
                · intro p hp
                  rw [vsum_append, vsum_cons, vsum_nil]
                  have : (if ("failed" : String) = "verified" ∧
                      un = p.1 then amount else 0) = 0 := by
                    rw [if_neg]
                    intro hc
                    exact absurd hc.1 (by decide)
                  rw [this]
                  have hA := A p hp
                  omega
                · intro l hl hlv
                  rcases List.mem_append.mp hl with hl | hl
                  · exact B l hl hlv
                  · rw [List.mem_singleton] at hl
                    subst hl
                    simp at hlv
                · intro l hl
                  rcases List.mem_append.mp hl with hl | hl
                  · exact Nat.lt_succ_of_lt (C l hl)
                  · rw [List.mem_singleton] at hl
                    subst hl
                    exact Nat.lt_succ_self _
                · rw [List.map_append]
                  refine List.Nodup.append D (by simp) ?_
                  intro a ha hb
                  simp only [List.map_cons, List.map_nil,
                    List.mem_singleton] at hb
                  subst hb
                  obtain ⟨l, hl, hid⟩ := List.mem_map.mp ha
                  exact absurd (hid ▸ C l hl) (lt_irrefl _)
                · intro l hl
                  rcases List.mem_append.mp hl with hl | hl
                  · exact F l hl
                  · rw [List.mem_singleton] at hl
                    subst hl
                    exact hasUser_of_usersGet hug
            · have hss : (postListCredit s un amount price pv cv).2 = s := by
                simp [postListCredit, hg.1, hg.2.1, hg.2.2, hug, hrole]
              rw [hss]
              exact ⟨A, B, C, D, F⟩
  | buyCredit buyer lid =>
      show GoodState (postBuyCredit s buyer lid).2
      by_cases hg : buyer = "" ∨ lid = 0
      · have hss : (postBuyCredit s buyer lid).2 = s := by
          simp [postBuyCredit, hg]
        rw [hss]
        exact ⟨A, B, C, D, F⟩
      · push_neg at hg
        cases hlg : listingsGet s.listings lid with
        | none =>
            have hss : (postBuyCredit s buyer lid).2 = s := by
              simp [postBuyCredit, hg.1, hg.2, purchaseCredit, hlg]
            rw [hss]
            exact ⟨A, B, C, D, F⟩
        | some l =>
            by_cases hst : l.status = "verified"
            · by_cases hbu : hasUser s.users buyer = true
              · have hmem := listingsGet_mem hlg
                have hq : (0 : Int) ≤ l.amount := B l hmem.1 hst
                rw [postBuyCredit_success s buyer lid l hg.1 hg.2 hlg
                  hst hbu]
                apply goodState_mk
                · intro p hp
                  obtain ⟨q1, hq1, hp1, hp2⟩ := mem_updateBalanceIn hp
                  obtain ⟨q0, hq0, hq11, hq12⟩ := mem_updateBalanceIn hq1
                  have hA := A q0 hq0
                  have hvd := vsum_deleteListing D hlg p.1
                  rw [hvd, hp2, hq12, hp1, hq11]
                  have e1 : (if l.status = "verified" ∧
                      l.seller = q0.1 then l.amount else 0) =
                      (if q0.1 = l.seller then l.amount else 0) := by
                    by_cases h : q0.1 = l.seller
                    · rw [if_pos ⟨hst, h.symm⟩, if_pos h]
                    · rw [if_neg (fun hc => h hc.2.symm), if_neg h]
                  rw [e1]
                  by_cases h1 : q0.1 = l.seller <;>
                    by_cases h2 : q0.1 = buyer
                  · rw [if_pos h1, if_pos h1, if_pos h2]
                    omega
                  · rw [if_pos h1, if_pos h1, if_neg h2]
                    omega
                  · rw [if_neg h1, if_neg h1, if_pos h2]
                    omega
                  · rw [if_neg h1, if_neg h1, if_neg h2]
                    omega
                · intro l2 hl2 hlv
                  exact B l2 (List.mem_of_mem_filter hl2) hlv
                · intro l2 hl2
                  exact C l2 (List.mem_of_mem_filter hl2)
                · exact D.sublist
                    ((List.filter_sublist s.listings).map Listing.id)
                · intro l2 hl2
                  rw [hasUser_updateBalanceIn, hasUser_updateBalanceIn]
                  exact F l2 (List.mem_of_mem_filter hl2)
              · have hbuf : hasUser s.users buyer = false :=
                  Bool.eq_false_iff.mpr hbu
                have hss : (postBuyCredit s buyer lid).2 = s := by
                  simp [postBuyCredit, hg.1, hg.2, purchaseCredit, hlg,
                    hst, hbuf]
                rw [hss]
                exact ⟨A, B, C, D, F⟩
            · have hss : (postBuyCredit s buyer lid).2 = s := by
                simp [postBuyCredit, hg.1, hg.2, purchaseCredit, hlg, hst]
              rw [hss]
              exact ⟨A, B, C, D, F⟩

theorem goodState_run (ops : List Op) :
    ∀ s, GoodState s → (∀ op ∈ ops, NonNegOp op) →
      GoodState (run s ops) := by
  induction ops with
  | nil => intro s hs _; exact hs
  | cons op rest ih =>
      intro s hs h
      exact ih _ (goodState_applyOp hs (h op (by simp)))
        (fun o ho => h o (List.mem_cons_of_mem _ ho))

/-- **C7 counterexample.** Negative balances are reachable through the
public operations: a single committed issuance with quantity -5 (which
the validation does not reject) leaves seller1 with balance -5 < 0. -/
theorem reachable_negative_balance :
    ∃ s, Reachable s ∧ ∃ p ∈ s.users, p.2.balance < 0 :=
  ⟨run initialState [.listCredit "seller1" (-5) 2 (fun _ => true)
      (fun _ => true)],
   ⟨[.listCredit "seller1" (-5) 2 (fun _ => true) (fun _ => true)], rfl⟩,
   ("seller1", ⟨"seller1", "password123", "seller", -5⟩),
   by decide, by decide⟩

/-- **C7 amended.** In every state reachable from the initial state
through runs whose issuance quantities are all non-negative, every
account's balance is non-negative; in particular a purchase never
drives the seller's balance below zero. (Unrestricted, the claim fails:
a negative-quantity issuance is accepted and credits a negative
amount.) -/
theorem balances_nonneg (ops : List Op) (h : ∀ op ∈ ops, NonNegOp op) :
    ∀ p ∈ (run initialState ops).users, 0 ≤ p.2.balance := by
  have hg := goodState_run ops initialState goodState_initial h
  intro p hp
  have h1 := hg.1 p hp
  have h2 := vsum_nonneg p.1 hg.2.1
  omega

/-- Witness for the amended C7: after a committed issuance of 5 and a
purchase, seller1 sits at balance 0 and is indeed non-negative, by the
theorem applied to that concrete run. -/
theorem balances_nonneg_witness :
    ("seller1", (⟨"seller1", "password123", "seller", 0⟩ : User)) ∈
      (run initialState [.listCredit "seller1" 5 2 (fun _ => true)
        (fun _ => true), .buyCredit "buyer1" 1]).users ∧
    (0 : Int) ≤
      (⟨"seller1", "password123", "seller", 0⟩ : User).balance := by
  constructor
  · decide
  · exact balances_nonneg
      [.listCredit "seller1" 5 2 (fun _ => true) (fun _ => true),
       .buyCredit "buyer1" 1]
      (by
        intro op hop
        rcases List.mem_cons.mp hop with rfl | hop
        · show (0 : Int) ≤ 5
          decide
        · rcases List.mem_singleton.mp hop with rfl
          trivial)
      ("seller1", ⟨"seller1", "password123", "seller", 0⟩)
      (by decide)

end Marketplace
